import Mathlib

/-!
Shallow embedding of `src/parse_gabc.py` (the playGABC repository): the
GABC notation decoder (`GabcParser`), the pitch-mapping `Scale`, and the
`Note` record with its lilypond rendering.  Python strings are modelled as
`List Char`, the `semi_tones` dict as an insertion-ordered association
list, fallible operations return `Except PyErr`, and the aliasing between
a `Note` and the `Scale` object it was created from is modelled by a heap
of scale objects held in the parser state, with each note storing the
index of its scale.
-/

set_option autoImplicit false

namespace PlayGABC

/-- Python exception kinds raised by the decoder paths in `parse_gabc.py`. -/
inductive PyErr where
  | indexError
  | keyError
  | valueError
  | attributeError
  | assertionError
deriving DecidableEq, Repr

/-- Lookup in an insertion-ordered association list (Python `dict[k]`). -/
def dictGet (d : List (Nat × Int)) (k : Nat) : Option Int :=
  match d with
  | [] => none
  | (k', v) :: rest => if k' = k then some v else dictGet rest k

/-- Assignment `d[k] = v` on an insertion-ordered association list: an
existing key keeps its position, a new key is appended at the end. -/
def dictSet (d : List (Nat × Int)) (k : Nat) (v : Int) : List (Nat × Int) :=
  match d with
  | [] => [(k, v)]
  | (k', v') :: rest => if k' = k then (k', v) :: rest else (k', v') :: dictSet rest k v

/-- The mutable `Scale` object of `parse_gabc.py`: `tonic_adjust` and the
`semi_tones` dict mapping diatonic degree to semitones above the tonic. -/
structure ScaleObj where
  tonic_adjust : Int
  semi_tones : List (Nat × Int)
deriving DecidableEq, Repr

/-- `Scale.__init__(tonic)`: the natural seven-degree mapping. -/
def Scale.init (tonic : Int) : ScaleObj :=
  { tonic_adjust := tonic
    semi_tones := [(0, 0), (1, 2), (2, 4), (3, 5), (4, 7), (5, 9), (6, 11)] }

/-- `Note.NORMAL_DURATION`. -/
def NORMAL_DURATION : Nat := 2

/-- `Note.MIDI_PITCH_OFFSET` (middle C). -/
def MIDI_PITCH_OFFSET : Int := 60

/-- The `Note` record.  `scaleIdx` models the Python reference from the
note to the `Scale` object it was constructed with (an index into the
parser's heap of scale objects). -/
structure Note where
  val : Int
  scaleIdx : Nat
  duration : Nat
  ornamentation : Option Char
  doubled : Bool
deriving DecidableEq, Repr

/-- `Note.__init__(val, scale)`. -/
def Note.init (val : Int) (scaleIdx : Nat) : Note :=
  { val := val + MIDI_PITCH_OFFSET
    scaleIdx := scaleIdx
    duration := NORMAL_DURATION
    ornamentation := none
    doubled := false }

/-- `Note.increment_duration`: adds `NORMAL_DURATION` (= 2) to the
duration level and records the lengthening in `doubled`. -/
def Note.increment_duration (n : Note) : Note :=
  { n with duration := n.duration + NORMAL_DURATION, doubled := true }

/-- `Note.halve_duration`: hollow punctum, duration forced to level 1. -/
def Note.halve_duration (n : Note) : Note :=
  { n with duration := 1 }

/-- `Note.ornament`. -/
def Note.ornament (n : Note) (ornamentation_type : Char) : Note :=
  { n with ornamentation := some ornamentation_type }

/-- `Scale.semitones(n)`: `divmod(n, 7)` (floor semantics) then
`octave * 12 + semi_tones[interval]`; a missing key is a `KeyError`. -/
def Scale.semitones (s : ScaleObj) (n : Int) : Except PyErr Int :=
  match dictGet s.semi_tones (n.emod 7).toNat with
  | some v => Except.ok (n.ediv 7 * 12 + v)
  | none => Except.error PyErr.keyError

/-- `Scale.make_note(stave_pos)`: adds `tonic_adjust`, converts to
semitones and builds a `Note` holding a reference to this scale. -/
def Scale.make_note (s : ScaleObj) (scaleIdx : Nat) (stave_pos : Int) : Except PyErr Note :=
  (Scale.semitones s (stave_pos + s.tonic_adjust)).map (fun v => Note.init v scaleIdx)

/-- `Scale.get_scale_pos(intvl)`: reverse lookup of a semitone value in
`semi_tones`, first match in insertion order; `ValueError` if absent. -/
def Scale.get_scale_pos (s : ScaleObj) (intvl : Int) : Except PyErr Nat :=
  match s.semi_tones.find? (fun p => p.2 = intvl) with
  | some p => Except.ok p.1
  | none => Except.error PyErr.valueError

/-- `Scale.lower_note(value_in_semitones)`: step one diatonic degree down
within the current mapping and return the corresponding `Note`. -/
def Scale.lower_note (s : ScaleObj) (scaleIdx : Nat) (value_in_semitones : Int) :
    Except PyErr Note :=
  match Scale.get_scale_pos s (value_in_semitones.emod 12) with
  | Except.error e => Except.error e
  | Except.ok pos =>
    let octave := value_in_semitones.ediv 12
    let op : Int × Int := if pos = 0 then (octave - 1, 6) else (octave, (pos : Int) - 1)
    match Scale.semitones s op.2 with
    | Except.error e => Except.error e
    | Except.ok st => Except.ok (Note.init (12 * op.1 + st) scaleIdx)

/-- `Scale.set_accidental("on")`: flatten the seventh, `semi_tones[6] = 10`. -/
def Scale.set_accidental_on (s : ScaleObj) : ScaleObj :=
  { s with semi_tones := dictSet s.semi_tones 6 10 }

/-- `Scale.undo_accidental` (also `set_accidental("off")`): `semi_tones[6] = 11`. -/
def Scale.undo_accidental (s : ScaleObj) : ScaleObj :=
  { s with semi_tones := dictSet s.semi_tones 6 11 }

/-- The `GabcParser` object state: the ordered note stream, the
`last_neume_len` scalar, and the heap of `Scale` objects ever created
(`cur` is the index of the current scale, `none` while `self.scale is
None`). -/
structure ParserSt where
  note_stream : List Note
  last_neume_len : Nat
  scales : List ScaleObj
  cur : Option Nat
deriving DecidableEq, Repr

/-- `GabcParser.__init__`. -/
def initSt : ParserSt :=
  { note_stream := [], last_neume_len := 0, scales := [], cur := none }

/-- Dereference `self.scale`: `AttributeError` when it is still `None`. -/
def ParserSt.curScale (st : ParserSt) : Except PyErr (Nat × ScaleObj) :=
  match st.cur with
  | none => Except.error PyErr.attributeError
  | some i =>
    match st.scales.get? i with
    | some s => Except.ok (i, s)
    | none => Except.error PyErr.indexError

/-- The clef regex `([cf])([1-4])` matched (anchored) at the start of a
string, returning letter and line number. -/
def clefMatch (g : List Char) : Option (Char × Nat) :=
  match g with
  | a :: b :: _ =>
    if (a = 'c' ∨ a = 'f') ∧ ('1' ≤ b ∧ b ≤ '4') then some (a, b.toNat - 48) else none
  | _ => none

/-- `GabcParser.set_clef(clef)`: lowercase, match the clef pattern
(`ValueError` on failure) and install a fresh `Scale` with
`tonic = ord(letter) - ord("c") - 2 * (line - 1)`. -/
def GabcParser.set_clef (st : ParserSt) (clef : List Char) : Except PyErr ParserSt :=
  match clefMatch (clef.map Char.toLower) with
  | none => Except.error PyErr.valueError
  | some (letter, line) =>
    let tonic : Int := (letter.toNat : Int) - ('c'.toNat : Int) - 2 * ((line : Int) - 1)
    Except.ok { st with scales := st.scales ++ [Scale.init tonic]
                        cur := some st.scales.length }

/-- Mutate the last element of a list (`lst[-1] = f lst[-1]`), raising
`IndexError` on an empty list. -/
def mutateLast (f : Note → Note) : List Note → Except PyErr (List Note)
  | [] => Except.error PyErr.indexError
  | [n] => Except.ok [f n]
  | n :: m :: rest => (mutateLast f (m :: rest)).map (fun l => n :: l)

/-- The `for note_num in range(num_notes)` loop of
`maybe_lengthen_last_note`: walk back from the most recent note,
incrementing each note not yet `doubled`; `note_stream[-1 - note_num]`
out of range raises `IndexError`. -/
def lengthenFrom : List Note → Nat → Nat → Except PyErr (List Note)
  | stream, _, 0 => Except.ok stream
  | stream, note_num, Nat.succ fuel =>
    if note_num < stream.length then
      let idx := stream.length - 1 - note_num
      let n := stream.getD idx (Note.init 0 0)
      let next := if n.doubled then stream else stream.set idx n.increment_duration
      lengthenFrom next (note_num + 1) fuel
    else Except.error PyErr.indexError

/-- `GabcParser.maybe_lengthen_last_note(num_notes, duplicate_note)`:
a tie always increments the last note; otherwise `num_notes = 0` means
"use `last_neume_len`" and each of the trailing notes is incremented
only if not already `doubled`. -/
def GabcParser.maybe_lengthen_last_note (st : ParserSt) (num_notes : Nat)
    (duplicate_note : Bool) : Except PyErr ParserSt :=
  if duplicate_note then
    (mutateLast Note.increment_duration st.note_stream).map
      (fun l => { st with note_stream := l })
  else
    let nn := if num_notes = 0 then st.last_neume_len else num_notes
    (lengthenFrom st.note_stream 0 nn).map (fun l => { st with note_stream := l })

/-- `GabcParser.shorten_last_note`. -/
def GabcParser.shorten_last_note (st : ParserSt) : Except PyErr ParserSt :=
  (mutateLast Note.halve_duration st.note_stream).map
    (fun l => { st with note_stream := l })

/-- `GabcParser.ornament_last_note(ornament_type)`. -/
def GabcParser.ornament_last_note (st : ParserSt) (ornament_type : Char) :
    Except PyErr ParserSt :=
  (mutateLast (fun n => Note.ornament n ornament_type) st.note_stream).map
    (fun l => { st with note_stream := l })

/-- `GabcParser.set_accidental(on_off)`: asserts `on_off in {x, y}`, then
flattens or restores the seventh of the current scale. -/
def GabcParser.set_accidental (st : ParserSt) (on_off : Char) : Except PyErr ParserSt :=
  if on_off = 'x' ∨ on_off = 'y' then
    match st.curScale with
    | Except.error e => Except.error e
    | Except.ok (i, s) =>
      let s' := if on_off = 'x' then Scale.set_accidental_on s else Scale.undo_accidental s
      Except.ok { st with scales := st.scales.set i s' }
  else Except.error PyErr.assertionError

/-- `GabcParser.make_note(letter)`: stave position is
`ord(letter) - ord("d")`, then `Scale.make_note` on the current scale. -/
def GabcParser.make_note (st : ParserSt) (letter : Char) : Except PyErr Note :=
  match st.curScale with
  | Except.error e => Except.error e
  | Except.ok (i, s) => Scale.make_note s i ((letter.toNat : Int) - ('d'.toNat : Int))

/-- `DOUBLE_BAR.match(g_str)`: does the string start with `::`. -/
def startsDoubleBar (g : List Char) : Bool :=
  match g with
  | ':' :: ':' :: _ => true
  | _ => false

/-- `CLEF_PATTERN.match(g_str)` (case-sensitive, as used for detection in
`deal_with_syllable_level`). -/
def clefAtStart (g : List Char) : Bool :=
  (clefMatch g).isSome

/-- A letter that can carry an accidental: `[a-m]` (lowercase, the regex
`r"[a-m]([xy])"` is case-sensitive). -/
def isAccLetter (c : Char) : Bool :=
  'a' ≤ c ∧ c ≤ 'm'

/-- The accidental marker characters `x` (flat) and `y` (natural). -/
def isXY (c : Char) : Bool :=
  c = 'x' ∨ c = 'y'

/-- `re.search(r"[a-m]([xy])", g_str)`: the marker character of the first
(leftmost) accidental occurrence, if any. -/
def findAccidental : List Char → Option Char
  | a :: b :: rest =>
    if isAccLetter a ∧ isXY b then some b else findAccidental (b :: rest)
  | _ => none

/-- `re.sub(r"[a-m][xy]", "", g_str)`: remove every (non-overlapping,
leftmost-first) accidental occurrence. -/
def removeAccidentals : List Char → List Char
  | a :: b :: rest =>
    if isAccLetter a ∧ isXY b then removeAccidentals rest
    else a :: removeAccidentals (b :: rest)
  | l => l

/-- `re.sub(DOUBLE_BAR, "", g_str)`: remove every `::`. -/
def removeDoubleBars : List Char → List Char
  | ':' :: ':' :: rest => removeDoubleBars rest
  | c :: rest => c :: removeDoubleBars rest
  | [] => []

/-- `re.sub(CLEF_PATTERN, "", g_str)`: remove every `[cf][1-4]` pair. -/
def removeClefs : List Char → List Char
  | a :: b :: rest =>
    if (a = 'c' ∨ a = 'f') ∧ ('1' ≤ b ∧ b ≤ '4') then removeClefs rest
    else a :: removeClefs (b :: rest)
  | l => l

/-- `re.sub(r"\[\d+\]", "", g_str)` (fuel-indexed recursion, the fuel is
the input length which bounds the number of steps): remove every
bracketed digit run. -/
def removeBracketNumsF : Nat → List Char → List Char
  | 0, l => l
  | _, [] => []
  | Nat.succ fuel, '[' :: rest =>
    match rest.span Char.isDigit with
    | (_ :: _, ']' :: rest') => removeBracketNumsF fuel rest'
    | _ => '[' :: removeBracketNumsF fuel rest
  | Nat.succ fuel, c :: rest => c :: removeBracketNumsF fuel rest

/-- `re.sub(r"\[\d+\]", "", g_str)`. -/
def removeBracketNums (l : List Char) : List Char :=
  removeBracketNumsF l.length l

/-- Index of the last occurrence of a character in a list. -/
def lastIdxOf (l : List Char) (c : Char) : Option Nat :=
  match l with
  | [] => none
  | a :: rest =>
    match lastIdxOf rest c with
    | some j => some (j + 1)
    | none => if a = c then some 0 else none

/-- `re.sub(r"\[.*\]", "", g_str)` (fuel-indexed): a greedy `.*` runs from
an opening bracket to the last `]` before a newline; unmatched opening
brackets are kept. -/
def removeBracketAnyF : Nat → List Char → List Char
  | 0, l => l
  | _, [] => []
  | Nat.succ fuel, '[' :: rest =>
    match lastIdxOf (rest.takeWhile (fun c => c ≠ '\n')) ']' with
    | some j => removeBracketAnyF fuel (rest.drop (j + 1))
    | none => '[' :: removeBracketAnyF fuel rest
  | Nat.succ fuel, c :: rest => c :: removeBracketAnyF fuel rest

/-- `re.sub(r"\[.*\]", "", g_str)`. -/
def removeBracketAny (l : List Char) : List Char :=
  removeBracketAnyF l.length l

/-- The `REMOVAL_PATTTERNS` loop: double bar, clef, bracketed number,
bracketed annotation, substituted in this order. -/
def applyRemovals (g : List Char) : List Char :=
  removeBracketAny (removeBracketNums (removeClefs (removeDoubleBars g)))

/-- A letter matched by `LAST_NEUME_PATTERN`'s first alternative
`(?i:[a-l]+)`: `a`–`l`, case-insensitively.  Note this is narrower than
the `a`–`m` range the character scanner accepts as pitch letters. -/
def isNeumeLetter (c : Char) : Bool :=
  ('a' ≤ c ∧ c ≤ 'l') ∨ ('A' ≤ c ∧ c ≤ 'L')

/-- Length of the maximal trailing run of `isNeumeLetter` characters. -/
def trailingNeumeRun (g : List Char) : Nat :=
  (g.reverse.takeWhile isNeumeLetter).length

/-- The subject the `$` anchor effectively matches against: Python's `$`
(without `MULTILINE`) matches at the end of the string or just before a
newline at the end of the string, so a single trailing newline is
invisible to the anchored alternatives. -/
def lastNeumeSubject (g : List Char) : List Char :=
  if g.getLast? = some '\n' then g.dropLast else g

/-- `LAST_NEUME_PATTERN.search(g_str)` (`r"(?i:[a-l]+)$|\.$"`), returning
the length of the match: the trailing letter run (ignoring one trailing
newline, per `$` semantics) if non-empty, else 1 when the subject ends
in a dot. -/
def lastNeumeMatch (g : List Char) : Option Nat :=
  if 0 < trailingNeumeRun (lastNeumeSubject g) then
    some (trailingNeumeRun (lastNeumeSubject g))
  else if (lastNeumeSubject g).getLast? = some '.' then some 1
  else none

/-- The final step of `deal_with_syllable_level`: store the match length
in `last_neume_len` when `LAST_NEUME_PATTERN` matches. -/
def updateLastNeume (st : ParserSt) (g : List Char) : ParserSt :=
  match lastNeumeMatch g with
  | some n => { st with last_neume_len := n }
  | none => st

/-- `GabcParser.deal_with_syllable_level(g_str)`: double-bar lengthening,
embedded clef, accidental detection and removal, pattern removals, and
the trailing-neume length, in the source's order; returns the updated
state and the cleaned string. -/
def GabcParser.deal_with_syllable_level (st : ParserSt) (g : List Char) :
    Except PyErr (ParserSt × List Char) :=
  match (if startsDoubleBar g then GabcParser.maybe_lengthen_last_note st 0 false
         else Except.ok st) with
  | Except.error e => Except.error e
  | Except.ok st1 =>
    match (if clefAtStart g then GabcParser.set_clef st1 g else Except.ok st1) with
    | Except.error e => Except.error e
    | Except.ok st2 =>
      match (match findAccidental g with
             | some xy => (GabcParser.set_accidental st2 xy).map
                 (fun s => (s, removeAccidentals g))
             | none => Except.ok (st2, g)) with
      | Except.error e => Except.error e
      | Except.ok (st3, g1) =>
        let g2 := applyRemovals g1
        Except.ok (updateLastNeume st3 g2, g2)

/-- One step of the character state machine of `decode_gabc_string`:
dispatch on the (already lowercased) character, returning the new state,
`prev_note` and `dot_seen`. -/
def scanChar (st : ParserSt) (prev_note : Option Char) (dot_seen : Bool) (ch : Char) :
    Except PyErr (ParserSt × Option Char × Bool) :=
  if 'a' ≤ ch ∧ ch ≤ 'm' then
    if prev_note = some ch then
      (GabcParser.maybe_lengthen_last_note st 1 true).map (fun s => (s, prev_note, dot_seen))
    else
      match GabcParser.make_note st ch with
      | Except.error e => Except.error e
      | Except.ok n =>
        Except.ok ({ st with note_stream := st.note_stream ++ [n] }, some ch, dot_seen)
  else if ch = 'w' then
    (GabcParser.ornament_last_note st ch).map (fun s => (s, prev_note, dot_seen))
  else if ch = 'v' ∨ ch = '@' ∨ ch = '/' ∨ ch = '!' ∨ ch = '\n' ∨ ch = 'z' then
    Except.ok (st, prev_note, dot_seen)
  else if ch = '.' then
    let nd : Nat × Bool := if dot_seen then (2, false) else (1, true)
    (GabcParser.maybe_lengthen_last_note st nd.1 false).map (fun s => (s, prev_note, nd.2))
  else if ch = 'r' then
    (GabcParser.shorten_last_note st).map (fun s => (s, prev_note, dot_seen))
  else if ch = ',' ∨ ch = ';' ∨ ch = ':' then
    match st.curScale with
    | Except.error e => Except.error e
    | Except.ok (i, s) =>
      let st2 := { st with scales := st.scales.set i (Scale.undo_accidental s) }
      match GabcParser.maybe_lengthen_last_note st2 0 false with
      | Except.error e => Except.error e
      | Except.ok st3 => Except.ok ({ st3 with last_neume_len := 0 }, prev_note, dot_seen)
  else if ch = '~' then
    Except.ok (st, prev_note, dot_seen)
  else Except.error PyErr.valueError

/-- The `for ch in g_str.lower()` loop. -/
def scanChars (st : ParserSt) (prev_note : Option Char) (dot_seen : Bool) :
    List Char → Except PyErr ParserSt
  | [] => Except.ok st
  | ch :: rest =>
    match scanChar st prev_note dot_seen ch.toLower with
    | Except.error e => Except.error e
    | Except.ok (st', p', d') => scanChars st' p' d' rest

/-- `GabcParser.decode_gabc_string(g_str)`: syllable-level preprocessing
then the character scan with fresh `prev_note` and `dot_seen`. -/
def GabcParser.decode_gabc_string (st : ParserSt) (g : List Char) : Except PyErr ParserSt :=
  match GabcParser.deal_with_syllable_level st g with
  | Except.error e => Except.error e
  | Except.ok (st1, g1) => scanChars st1 none false g1

/-- `GabcParser.parse_gabc(note_array)`: the first token is the clef, the
rest are decoded in order. -/
def GabcParser.parse_gabc (note_array : List (List Char)) : Except PyErr ParserSt :=
  match note_array with
  | [] => Except.error PyErr.indexError
  | clef :: rest =>
    match GabcParser.set_clef initSt clef with
    | Except.error e => Except.error e
    | Except.ok st => rest.foldlM GabcParser.decode_gabc_string st

/-- The lilypond octave-up marker, an ASCII apostrophe. -/
def apo : Char := Char.ofNat 39

/-- ASCII left brace. -/
def lbrace : Char := Char.ofNat 123

/-- ASCII right brace. -/
def rbrace : Char := Char.ofNat 125

/-- ASCII backslash. -/
def bslash : Char := Char.ofNat 92

/-- `Note.LY_DURATION`: the ordered table of output duration tokens,
indexed by the internal duration level. -/
def LY_DURATION : List (List Char) :=
  [[], ['8'], ['4'], ['4', '.'], ['2'], ['2', '.'], ['1']]

/-- The `note_array` dict of `Note.to_ly`: pitch-class names. -/
def NOTE_NAMES : List (List Char) :=
  [['c'], ['c', 's'], ['d'], ['d', 's'], ['e'], ['f'], ['f', 's'], ['g'],
   ['g', 's'], ['a'], ['b', 'f'], ['b']]

/-- `Note.ly_octave(octave)`: octave markers relative to the reference
octave 4 (apostrophes above, commas below). -/
def ly_octave (octave : Int) : List Char :=
  if octave > 4 then List.replicate (octave - 4).toNat apo
  else if octave = 4 then []
  else List.replicate (4 - octave).toNat ','

/-- `"\tuplet 3/2 { main pn main }"` assembled from its pieces. -/
def tupletWrap (main pn : List Char) : List Char :=
  [bslash, 't', 'u', 'p', 'l', 'e', 't', ' ', '3', '/', '2', ' ', lbrace, ' ']
    ++ main ++ [' '] ++ pn ++ [' '] ++ main ++ [' ', rbrace]

/-- `Note.to_ly`, rendering against the heap of scale objects (the note's
`scaleIdx` dereferences `self.scale`): pitch class and octave from
`divmod(val, 12)`, duration from `LY_DURATION`, or the three-event tuplet
grouping when the note is ornamented, with the passing tone obtained from
`Scale.lower_note` (`Note.get_note_lower`). -/
def Note.to_ly (heap : List ScaleObj) (n : Note) : Except PyErr (List Char) :=
  match NOTE_NAMES.get? (n.val.emod 12).toNat with
  | none => Except.error PyErr.keyError
  | some name =>
    let oct := ly_octave (n.val.ediv 12)
    match n.ornamentation with
    | none =>
      match LY_DURATION.get? n.duration with
      | none => Except.error PyErr.indexError
      | some dur => Except.ok (name ++ oct ++ dur)
    | some _ =>
      match heap.get? n.scaleIdx with
      | none => Except.error PyErr.indexError
      | some s =>
        let main := name ++ oct ++ ['8']
        match Scale.lower_note s n.scaleIdx (n.val - MIDI_PITCH_OFFSET) with
        | Except.error e => Except.error e
        | Except.ok pn =>
          match NOTE_NAMES.get? (pn.val.emod 12).toNat with
          | none => Except.error PyErr.keyError
          | some pname =>
            let pfrm := pname ++ ly_octave (pn.val.ediv 12) ++ ['8']
            Except.ok (tupletWrap main pfrm)

/-- The natural seven-degree semitone dict `{0:0,...,6:11}`. -/
def natTones : List (Nat × Int) :=
  [(0, 0), (1, 2), (2, 4), (3, 5), (4, 7), (5, 9), (6, 11)]

/-- The flattened-seventh semitone dict `{0:0,...,6:10}`. -/
def flatTones : List (Nat × Int) :=
  [(0, 0), (1, 2), (2, 4), (3, 5), (4, 7), (5, 9), (6, 10)]

/-- The `semi_tones` invariant of a `Scale` object: the dict is either the
natural mapping or the flattened-seventh mapping. -/
def ScaleInv (s : ScaleObj) : Prop :=
  s.semi_tones = natTones ∨ s.semi_tones = flatTones

/-- Every scale object ever created by the decoder satisfies `ScaleInv`. -/
def StInv (st : ParserSt) : Prop :=
  ∀ s ∈ st.scales, ScaleInv s

/-! ## Helper lemmas -/

theorem except_map_ok {α β : Type} {f : α → β} {x : Except PyErr α} {y : β}
    (h : x.map f = Except.ok y) : ∃ a, x = Except.ok a ∧ y = f a := by
  cases x with
  | error e => simp [Except.map] at h
  | ok a =>
    refine ⟨a, rfl, ?_⟩
    simpa [Except.map] using h.symm

theorem maybe_lengthen_fields {st : ParserSt} {n : Nat} {d : Bool} {st' : ParserSt}
    (h : GabcParser.maybe_lengthen_last_note st n d = Except.ok st') :
    st'.last_neume_len = st.last_neume_len ∧ st'.scales = st.scales ∧ st'.cur = st.cur := by
  unfold GabcParser.maybe_lengthen_last_note at h
  by_cases hd : d = true
  · rw [if_pos hd] at h
    obtain ⟨l, _, rfl⟩ := except_map_ok h
    exact ⟨rfl, rfl, rfl⟩
  · rw [if_neg hd] at h
    obtain ⟨l, _, rfl⟩ := except_map_ok h
    exact ⟨rfl, rfl, rfl⟩

theorem set_clef_shape {st : ParserSt} {c : List Char} {st' : ParserSt}
    (h : GabcParser.set_clef st c = Except.ok st') :
    ∃ t, st' = { st with scales := st.scales ++ [Scale.init t]
                         cur := some st.scales.length } := by
  unfold GabcParser.set_clef at h
  split at h
  · exact absurd h (by simp)
  · exact ⟨_, (Except.ok.injEq _ _ ▸ h).symm⟩

theorem curScale_ok {st : ParserSt} {i : Nat} {s : ScaleObj}
    (h : st.curScale = Except.ok (i, s)) :
    st.cur = some i ∧ st.scales.get? i = some s := by
  unfold ParserSt.curScale at h
  cases hc : st.cur with
  | none => rw [hc] at h; cases h
  | some j =>
    rw [hc] at h
    dsimp only at h
    cases hg : st.scales.get? j with
    | none => rw [hg] at h; cases h
    | some s0 =>
      rw [hg] at h
      simp only [Except.ok.injEq, Prod.mk.injEq] at h
      obtain ⟨rfl, rfl⟩ := h
      exact ⟨rfl, hg⟩

theorem set_accidental_shape {st : ParserSt} {xy : Char} {st' : ParserSt}
    (h : GabcParser.set_accidental st xy = Except.ok st') :
    ∃ i s, st.scales.get? i = some s ∧
      (st' = { st with scales := st.scales.set i (Scale.set_accidental_on s) } ∨
       st' = { st with scales := st.scales.set i (Scale.undo_accidental s) }) := by
  unfold GabcParser.set_accidental at h
  split at h
  · cases h1 : st.curScale with
    | error e => rw [h1] at h; cases h
    | ok p =>
      obtain ⟨i, s⟩ := p
      rw [h1] at h
      simp only [Except.ok.injEq] at h
      obtain ⟨hcur, hget⟩ := curScale_ok h1
      refine ⟨i, s, hget, ?_⟩
      by_cases hx : xy = 'x'
      · left; rw [← h]; simp [hx]
      · right; rw [← h]; simp [hx]
  · cases h

theorem dictGet_dictSet_self (d : List (Nat × Int)) (k : Nat) (v : Int) :
    dictGet (dictSet d k v) k = some v := by
  induction d with
  | nil => simp [dictSet, dictGet]
  | cons p rest ih =>
    obtain ⟨k', v'⟩ := p
    by_cases hk : k' = k
    · simp [dictSet, dictGet, hk]
    · simp [dictSet, dictGet, hk, ih]

/-! ## C2 — clef / tonicAdjust closed form -/

/-- C2 counterexample: the claim says the letter `f` contributes +1
relative to `c`, so clef `"f1"` would yield `tonicAdjust = 1`; but
`set_clef` computes `ord('f') - ord('c') - 2*(1-1) = 3`, so clef `"f1"`
yields `tonicAdjust = 3 ≠ 1`. -/
theorem clef_f1_counterexample :
    GabcParser.set_clef initSt ("f1".toList) =
      Except.ok { note_stream := [], last_neume_len := 0,
                  scales := [Scale.init 3], cur := some 0 } ∧
    (Scale.init 3).tonic_adjust = 3 ∧ (3 : Int) ≠ 1 :=
  ⟨rfl, rfl, by decide⟩

/-- C2 amended: for every valid clef token `[c|f][1-4]`
(case-insensitive), `set_clef` sets `tonicAdjust` to
`(ord(letter) - ord('c')) - 2*(line-1)`, in which the letter `f`
contributes +3 (the alphabetic distance from `c` to `f`): c1 ↦ 0,
c2 ↦ -2, c3 ↦ -4, c4 ↦ -6, f1 ↦ 3, f2 ↦ 1, f3 ↦ -1, f4 ↦ -3, and
uppercase `"F1"` behaves as `"f1"`. -/
theorem set_clef_tonic_adjust_values :
    GabcParser.set_clef initSt ("c1".toList) =
      Except.ok { note_stream := [], last_neume_len := 0,
                  scales := [Scale.init 0], cur := some 0 } ∧
    GabcParser.set_clef initSt ("c2".toList) =
      Except.ok { note_stream := [], last_neume_len := 0,
                  scales := [Scale.init (-2)], cur := some 0 } ∧
    GabcParser.set_clef initSt ("c3".toList) =
      Except.ok { note_stream := [], last_neume_len := 0,
                  scales := [Scale.init (-4)], cur := some 0 } ∧
    GabcParser.set_clef initSt ("c4".toList) =
      Except.ok { note_stream := [], last_neume_len := 0,
                  scales := [Scale.init (-6)], cur := some 0 } ∧
    GabcParser.set_clef initSt ("f1".toList) =
      Except.ok { note_stream := [], last_neume_len := 0,
                  scales := [Scale.init 3], cur := some 0 } ∧
    GabcParser.set_clef initSt ("f2".toList) =
      Except.ok { note_stream := [], last_neume_len := 0,
                  scales := [Scale.init 1], cur := some 0 } ∧
    GabcParser.set_clef initSt ("f3".toList) =
      Except.ok { note_stream := [], last_neume_len := 0,
                  scales := [Scale.init (-1)], cur := some 0 } ∧
    GabcParser.set_clef initSt ("f4".toList) =
      Except.ok { note_stream := [], last_neume_len := 0,
                  scales := [Scale.init (-3)], cur := some 0 } ∧
    GabcParser.set_clef initSt ("F1".toList) =
      Except.ok { note_stream := [], last_neume_len := 0,
                  scales := [Scale.init 3], cur := some 0 } ∧
    GabcParser.set_clef initSt ("g1".toList) = Except.error PyErr.valueError :=
  ⟨rfl, rfl, rfl, rfl, rfl, rfl, rfl, rfl, rfl, rfl⟩

theorem mutateLast_ok {f : Note → Note} :
    ∀ {l l' : List Note}, mutateLast f l = Except.ok l' →
      ∃ fr lastN, l = fr ++ [lastN] ∧ l' = fr ++ [f lastN] := by
  intro l
  induction l with
  | nil => intro l' h; cases h
  | cons a rest ih =>
    intro l' h
    cases rest with
    | nil =>
      simp only [mutateLast, Except.ok.injEq] at h
      exact ⟨[], a, rfl, by simp [← h]⟩
    | cons b rest2 =>
      simp only [mutateLast] at h
      obtain ⟨l2, h2, rfl⟩ := except_map_ok h
      obtain ⟨fr, lastN, hfr, hl2⟩ := ih h2
      exact ⟨a :: fr, lastN, by simp [hfr], by simp [hl2]⟩

theorem lengthenFrom_preserves_doubled :
    ∀ (fuel : Nat) (s : List Note) (k : Nat) (s' : List Note),
      lengthenFrom s k fuel = Except.ok s' →
      ∀ j n, s.get? j = some n → n.doubled = true → s'.get? j = some n := by
  intro fuel
  induction fuel with
  | zero =>
    intro s k s' h j n hj hd
    cases h
    exact hj
  | succ fuel ih =>
    intro s k s' h j n hj hd
    simp only [lengthenFrom] at h
    split at h
    · by_cases hd2 : (s.getD (s.length - 1 - k) (Note.init 0 0)).doubled
      · rw [if_pos hd2] at h
        exact ih _ _ _ h j n hj hd
      · rw [if_neg hd2] at h
        apply ih _ _ _ h
        · rcases eq_or_ne j (s.length - 1 - k) with rfl | hne
          · exfalso
            have hg : s.getD (s.length - 1 - k) (Note.init 0 0) = n := by
              simp only [List.getD_eq_getElem?_getD, ← List.get?_eq_getElem?, hj,
                Option.getD_some]
            rw [hg] at hd2
            exact hd2 hd
          · simp only [List.get?_eq_getElem?]
            rw [List.getElem?_set_ne (Ne.symm hne)]
            simpa only [List.get?_eq_getElem?] using hj
        · exact hd
    · cases h

/-! ## C1 — tie-duplicate lengthening and the `doubled` flag -/

/-- C1 counterexample: decoding `["c1", "fdd"]` lengthens the second note
(`d`, val 60) only through the tie-duplicate path, yet its
`doubled` (lengthenedAlready) flag is `true` — the tie DOES set the flag,
because `increment_duration` sets it unconditionally.  Consequently in
`["c1", "fdd", "e,"]` the following bar (trailing neume length 3) skips
the tied note: its duration stays 4 instead of being lengthened again to
6 as the claim asserts. -/
theorem tie_sets_doubled_counterexample :
    GabcParser.parse_gabc ["c1".toList, "fdd".toList] =
      Except.ok { note_stream :=
                    [{ val := 64, scaleIdx := 0, duration := 2,
                       ornamentation := none, doubled := false },
                     { val := 60, scaleIdx := 0, duration := 4,
                       ornamentation := none, doubled := true }],
                  last_neume_len := 3, scales := [Scale.init 0], cur := some 0 } ∧
    GabcParser.parse_gabc ["c1".toList, "fdd".toList, "e,".toList] =
      Except.ok { note_stream :=
                    [{ val := 64, scaleIdx := 0, duration := 4,
                       ornamentation := none, doubled := true },
                     { val := 60, scaleIdx := 0, duration := 4,
                       ornamentation := none, doubled := true },
                     { val := 62, scaleIdx := 0, duration := 4,
                       ornamentation := none, doubled := true }],
                  last_neume_len := 0, scales := [Scale.init 0], cur := some 0 } ∧
    (4 : Nat) ≠ 6 :=
  ⟨rfl, rfl, by decide⟩

/-- C1 amended: every lengthening, the tie-duplicate path included, sets
the affected note's `doubled` flag (`increment_duration` sets it
unconditionally); consequently a note whose duration was extended only by
ties is skipped — not lengthened again — by a subsequent bar-triggered
lengthening, which leaves every `doubled` note untouched. -/
theorem tie_sets_flag_and_bar_skips :
    (∀ n : Note, (Note.increment_duration n).doubled = true) ∧
    (∀ (st st' : ParserSt),
      GabcParser.maybe_lengthen_last_note st 1 true = Except.ok st' →
      ∃ fr lastN, st.note_stream = fr ++ [lastN] ∧
        st'.note_stream = fr ++ [Note.increment_duration lastN]) ∧
    (∀ (st st' : ParserSt) (j : Nat) (n : Note),
      st.note_stream.get? j = some n → n.doubled = true →
      GabcParser.maybe_lengthen_last_note st 0 false = Except.ok st' →
      st'.note_stream.get? j = some n) := by
  refine ⟨fun n => rfl, ?_, ?_⟩
  · intro st st' h
    unfold GabcParser.maybe_lengthen_last_note at h
    rw [if_pos rfl] at h
    obtain ⟨l, hl, rfl⟩ := except_map_ok h
    obtain ⟨fr, lastN, hfr, hl'⟩ := mutateLast_ok hl
    exact ⟨fr, lastN, hfr, hl'⟩
  · intro st st' j n hj hd h
    unfold GabcParser.maybe_lengthen_last_note at h
    simp only [Bool.false_eq_true, if_false, if_pos rfl] at h
    obtain ⟨l, hl, rfl⟩ := except_map_ok h
    exact lengthenFrom_preserves_doubled _ _ _ _ hl j n hj hd

/-- Witness for `tie_sets_flag_and_bar_skips` at concrete inputs: a
one-note stream tied once, and a bar-lengthening over a stream whose only
note is already `doubled`. -/
theorem tie_sets_flag_and_bar_skips_witness :
    (Note.increment_duration (Note.init 0 0)).doubled = true ∧
    (∃ fr lastN,
      ({ note_stream := [Note.init 0 0], last_neume_len := 0,
         scales := [], cur := none } : ParserSt).note_stream = fr ++ [lastN] ∧
      ({ note_stream := [Note.increment_duration (Note.init 0 0)], last_neume_len := 0,
         scales := [], cur := none } : ParserSt).note_stream =
        fr ++ [Note.increment_duration lastN]) ∧
    ({ note_stream := [{ val := 60, scaleIdx := 0, duration := 4,
                         ornamentation := none, doubled := true }], last_neume_len := 1,
       scales := [], cur := none } : ParserSt).note_stream.get? 0 =
      some { val := 60, scaleIdx := 0, duration := 4,
             ornamentation := none, doubled := true } := by
  refine ⟨tie_sets_flag_and_bar_skips.1 (Note.init 0 0), ?_, ?_⟩
  · exact tie_sets_flag_and_bar_skips.2.1 _ _ rfl
  · exact tie_sets_flag_and_bar_skips.2.2
      { note_stream := [{ val := 60, scaleIdx := 0, duration := 4,
                          ornamentation := none, doubled := true }], last_neume_len := 1,
        scales := [], cur := none }
      { note_stream := [{ val := 60, scaleIdx := 0, duration := 4,
                          ornamentation := none, doubled := true }], last_neume_len := 1,
        scales := [], cur := none }
      0
      { val := 60, scaleIdx := 0, duration := 4, ornamentation := none, doubled := true }
      rfl rfl rfl

theorem getD_append_sing (fr : List Note) (b d : Note) :
    (fr ++ [b]).getD fr.length d = b := by
  rw [List.getD_append_right _ _ _ _ (le_refl _)]
  simp

theorem set_append_sing (fr : List Note) (b c : Note) :
    (fr ++ [b]).set fr.length c = fr ++ [c] := by
  rw [List.set_append_right _ _ (le_refl _)]
  simp

theorem lengthenFrom_one_not_doubled (fr : List Note) (b : Note) (hb : b.doubled = false) :
    lengthenFrom (fr ++ [b]) 0 1 = Except.ok (fr ++ [Note.increment_duration b]) := by
  have hlen : (fr ++ [b]).length = fr.length + 1 := by simp
  simp only [lengthenFrom, hlen]
  rw [if_pos (Nat.succ_pos _)]
  have hidx : fr.length + 1 - 1 - 0 = fr.length := by omega
  rw [hidx, getD_append_sing, hb]
  simp only [Bool.false_eq_true, if_false, set_append_sing, lengthenFrom]

theorem lengthenFrom_one_doubled (fr : List Note) (b : Note) (hb : b.doubled = true) :
    lengthenFrom (fr ++ [b]) 0 1 = Except.ok (fr ++ [b]) := by
  have hlen : (fr ++ [b]).length = fr.length + 1 := by simp
  simp only [lengthenFrom, hlen]
  rw [if_pos (Nat.succ_pos _)]
  have hidx : fr.length + 1 - 1 - 0 = fr.length := by omega
  rw [hidx, getD_append_sing, hb]
  simp only [if_true, lengthenFrom]

theorem lengthenFrom_two_last_doubled (fr : List Note) (a b : Note)
    (ha : a.doubled = false) (hb : b.doubled = true) :
    lengthenFrom (fr ++ [a, b]) 0 2 =
      Except.ok (fr ++ [Note.increment_duration a, b]) := by
  have hassoc : fr ++ [a, b] = (fr ++ [a]) ++ [b] := by simp
  have hlen : ((fr ++ [a]) ++ [b]).length = fr.length + 2 := by simp
  rw [hassoc]
  simp only [lengthenFrom, hlen]
  rw [if_pos (by omega)]
  have hidx : fr.length + 2 - 1 - 0 = fr.length + 1 := by omega
  have hflen : (fr ++ [a]).length = fr.length + 1 := by simp
  rw [hidx, ← hflen, getD_append_sing, hb]
  simp only [if_true]
  rw [if_pos (by omega)]
  simp only [hlen]
  have hidx2 : fr.length + 2 - 1 - (0 + 1) = fr.length := by omega
  rw [hidx2]
  have hgd : ((fr ++ [a]) ++ [b]).getD fr.length (Note.init 0 0) = a := by
    rw [List.getD_append _ _ _ _ (by simp)]
    exact getD_append_sing fr a _
  rw [hgd, ha]
  simp only [Bool.false_eq_true, if_false]
  have hset : ((fr ++ [a]) ++ [b]).set fr.length (Note.increment_duration a) =
      (fr ++ [Note.increment_duration a]) ++ [b] := by
    rw [List.set_append_left _ _ (by simp)]
    rw [set_append_sing]
  rw [hset]
  simp

theorem maybe_lengthen_one_shape {st st' : ParserSt}
    (h : GabcParser.maybe_lengthen_last_note st 1 false = Except.ok st') :
    lengthenFrom st.note_stream 0 1 = Except.ok st'.note_stream := by
  unfold GabcParser.maybe_lengthen_last_note at h
  rw [if_neg (by decide)] at h
  rw [show (if (1 : Nat) = 0 then st.last_neume_len else 1) = 1 from rfl] at h
  obtain ⟨l, hl, rfl⟩ := except_map_ok h
  exact hl

/-! ## C3 — size of a non-tie lengthening step -/

/-- C3 counterexample: decoding `["c1", "d."]` (a note at the normal
level 2 lengthened once by a dot) leaves the note at duration level 4,
not 3: `increment_duration` adds `NORMAL_DURATION = 2` levels, not one.
The note renders as `c'2` — the table entry two positions after the
normal entry `4` — whereas the claim predicts the immediately following
entry `4.` (i.e. `c'4.`). -/
theorem lengthen_one_level_counterexample :
    GabcParser.parse_gabc ["c1".toList, "d.".toList] =
      Except.ok { note_stream :=
                    [{ val := 60, scaleIdx := 0, duration := 4,
                       ornamentation := none, doubled := true }],
                  last_neume_len := 1, scales := [Scale.init 0], cur := some 0 } ∧
    Note.to_ly [Scale.init 0]
        { val := 60, scaleIdx := 0, duration := 4,
          ornamentation := none, doubled := true } =
      Except.ok ['c', apo, '2'] ∧
    LY_DURATION.get? (NORMAL_DURATION + 1) = some ['4', '.'] ∧
    ['c', apo, '2'] ≠ ['c', apo, '4', '.'] :=
  ⟨rfl, rfl, rfl, by decide⟩

/-- C3 amended: every non-tie lengthening event increments each affected
note's duration by `NORMAL_DURATION = 2` levels (not one); hence a note
at the normal level (2, duration token `4`) that is lengthened once moves
to level 4 and renders as the table entry two positions after the normal
entry (`2`, a doubling), skipping the immediately following entry `4.`. -/
theorem lengthening_adds_two_levels :
    NORMAL_DURATION = 2 ∧
    (∀ n : Note, Note.increment_duration n =
      { n with duration := n.duration + 2, doubled := true }) ∧
    (∀ (st st' : ParserSt) (fr : List Note) (b : Note),
      st.note_stream = fr ++ [b] → b.doubled = false →
      GabcParser.maybe_lengthen_last_note st 1 false = Except.ok st' →
      st'.note_stream = fr ++ [{ b with duration := b.duration + 2, doubled := true }]) ∧
    (LY_DURATION.get? NORMAL_DURATION = some ['4'] ∧
     LY_DURATION.get? (NORMAL_DURATION + 2) = some ['2'] ∧
     LY_DURATION.get? (NORMAL_DURATION + 1) = some ['4', '.']) := by
  refine ⟨rfl, fun n => rfl, ?_, rfl, rfl, rfl⟩
  intro st st' fr b hst hb h
  have h2 := maybe_lengthen_one_shape h
  rw [hst, lengthenFrom_one_not_doubled fr b hb] at h2
  injection h2 with h3
  rw [← h3]
  rfl

/-- Witness for `lengthening_adds_two_levels`: the dot path on a
one-note stream at the normal level. -/
theorem lengthening_adds_two_levels_witness :
    ({ note_stream := [{ val := 60, scaleIdx := 0, duration := 4,
                         ornamentation := none, doubled := true }], last_neume_len := 1,
       scales := [Scale.init 0], cur := some 0 } : ParserSt).note_stream =
      [] ++ [{ val := 60, scaleIdx := 0, duration := 2 + 2,
               ornamentation := none, doubled := true }] := by
  exact (lengthening_adds_two_levels.2.2.1
    { note_stream := [Note.init 0 0], last_neume_len := 1,
      scales := [Scale.init 0], cur := some 0 }
    { note_stream := [{ val := 60, scaleIdx := 0, duration := 4,
                        ornamentation := none, doubled := true }], last_neume_len := 1,
      scales := [Scale.init 0], cur := some 0 }
    [] (Note.init 0 0) rfl rfl rfl)

/-! ## C4 — decoding ["c1", "d"] -/

/-- C4 counterexample: `["c1", "d"]` produces exactly one note whose
pitch is the reference value 60 (`MIDI_PITCH_OFFSET`), as claimed — but
it renders as `c'4`, with ONE octave-up marker, not with no octave
marker: `divmod(60, 12) = (5, 0)` and `ly_octave` emits a marker for
every octave above 4. -/
theorem c1_d_render_counterexample :
    GabcParser.parse_gabc ["c1".toList, "d".toList] =
      Except.ok { note_stream :=
                    [{ val := 60, scaleIdx := 0, duration := 2,
                       ornamentation := none, doubled := false }],
                  last_neume_len := 1, scales := [Scale.init 0], cur := some 0 } ∧
    MIDI_PITCH_OFFSET = 60 ∧
    Note.to_ly [Scale.init 0]
        { val := 60, scaleIdx := 0, duration := 2,
          ornamentation := none, doubled := false } =
      Except.ok ['c', apo, '4'] ∧
    ['c', apo, '4'] ≠ ['c', '4'] :=
  ⟨rfl, rfl, rfl, by decide⟩

/-- C4 amended: decoding `["c1", "d"]` produces exactly one note whose
pitch equals the fixed tonic reference value `MIDI_PITCH_OFFSET = 60`,
and that note renders as the reference pitch-class name `c` with one
octave-up marker (60 sits in octave 5, one above the renderer's
reference octave 4) followed by the normal-level duration token `4`. -/
theorem c1_d_single_note_render :
    GabcParser.parse_gabc ["c1".toList, "d".toList] =
      Except.ok { note_stream :=
                    [{ val := 60, scaleIdx := 0, duration := 2,
                       ornamentation := none, doubled := false }],
                  last_neume_len := 1, scales := [Scale.init 0], cur := some 0 } ∧
    ({ val := 60, scaleIdx := 0, duration := 2,
       ornamentation := none, doubled := false } : Note).val = MIDI_PITCH_OFFSET ∧
    ly_octave ((60 : Int).ediv 12) = [apo] ∧
    LY_DURATION.get? NORMAL_DURATION = some ['4'] ∧
    Note.to_ly [Scale.init 0]
        { val := 60, scaleIdx := 0, duration := 2,
          ornamentation := none, doubled := false } =
      Except.ok (['c'] ++ [apo] ++ ['4']) :=
  ⟨rfl, rfl, rfl, rfl, rfl⟩

/-! ## C6 — dot, double dot, triple dot inside one token -/

/-- C6: within one token's scan over a stream ending in two
not-yet-lengthened notes, the first dot lengthens exactly the most
recent note; the second dot attempts the last two but net-changes only
the second-most-recent (the most recent being protected by its
`doubled` flag, set by the first dot); a third dot in the same token
changes no note. -/
theorem dot_double_dot_triple_dot
    (st : ParserSt) (fr : List Note) (a b : Note)
    (hst : st.note_stream = fr ++ [a, b]) (ha : a.doubled = false)
    (hb : b.doubled = false) :
    scanChars st none false ['.'] =
      Except.ok { st with note_stream := fr ++ [a, Note.increment_duration b] } ∧
    scanChars st none false ['.', '.'] =
      Except.ok { st with note_stream :=
        fr ++ [Note.increment_duration a, Note.increment_duration b] } ∧
    scanChars st none false ['.', '.', '.'] =
      Except.ok { st with note_stream :=
        fr ++ [Note.increment_duration a, Note.increment_duration b] } := by
  have hassoc : fr ++ [a, b] = (fr ++ [a]) ++ [b] := by simp
  have hML1 : GabcParser.maybe_lengthen_last_note st 1 false =
      Except.ok { st with note_stream := fr ++ [a, Note.increment_duration b] } := by
    unfold GabcParser.maybe_lengthen_last_note
    rw [if_neg (by decide), hst, hassoc]
    simp only [show (if (1 : Nat) = 0 then st.last_neume_len else 1) = 1 from rfl,
      lengthenFrom_one_not_doubled (fr ++ [a]) b hb, Except.map]
    simp
  have h1 : scanChar st none false '.' =
      Except.ok ({ st with note_stream := fr ++ [a, Note.increment_duration b] },
        none, true) := by
    show (GabcParser.maybe_lengthen_last_note st 1 false).map
        (fun s => (s, (none : Option Char), true)) = _
    rw [hML1]
    rfl
  set st1 : ParserSt := { st with note_stream := fr ++ [a, Note.increment_duration b] }
    with hst1
  have hML2 : GabcParser.maybe_lengthen_last_note st1 2 false =
      Except.ok { st with note_stream :=
        fr ++ [Note.increment_duration a, Note.increment_duration b] } := by
    unfold GabcParser.maybe_lengthen_last_note
    rw [if_neg (by decide)]
    rw [show st1.note_stream = fr ++ [a, Note.increment_duration b] from rfl]
    simp only [show (if (2 : Nat) = 0 then st1.last_neume_len else 2) = 2 from rfl,
      lengthenFrom_two_last_doubled fr a (Note.increment_duration b) ha rfl, Except.map]
  have h2 : scanChar st1 none true '.' =
      Except.ok ({ st with note_stream :=
        fr ++ [Note.increment_duration a, Note.increment_duration b] },
        none, false) := by
    show (GabcParser.maybe_lengthen_last_note st1 2 false).map
        (fun s => (s, (none : Option Char), false)) = _
    rw [hML2]
    rfl
  set st2 : ParserSt := { st with note_stream :=
    fr ++ [Note.increment_duration a, Note.increment_duration b] } with hst2
  have hML3 : GabcParser.maybe_lengthen_last_note st2 1 false = Except.ok st2 := by
    unfold GabcParser.maybe_lengthen_last_note
    rw [if_neg (by decide)]
    rw [show st2.note_stream =
      (fr ++ [Note.increment_duration a]) ++ [Note.increment_duration b] by simp]
    simp only [show (if (1 : Nat) = 0 then st2.last_neume_len else 1) = 1 from rfl,
      lengthenFrom_one_doubled (fr ++ [Note.increment_duration a])
        (Note.increment_duration b) rfl, Except.map]
    simp [hst2]
  have h3 : scanChar st2 none false '.' = Except.ok (st2, none, true) := by
    show (GabcParser.maybe_lengthen_last_note st2 1 false).map
        (fun s => (s, (none : Option Char), true)) = _
    rw [hML3]
    rfl
  refine ⟨?_, ?_, ?_⟩
  · simp only [scanChars, show Char.toLower '.' = '.' from rfl, h1]
  · simp only [scanChars, show Char.toLower '.' = '.' from rfl, h1, h2]
  · simp only [scanChars, show Char.toLower '.' = '.' from rfl, h1, h2, h3]

/-- Witness for `dot_double_dot_triple_dot` on a concrete two-note
stream. -/
theorem dot_double_dot_triple_dot_witness :
    scanChars { note_stream := [Note.init 2 0, Note.init 0 0], last_neume_len := 2,
                scales := [Scale.init 0], cur := some 0 } none false ['.'] =
      Except.ok { note_stream :=
                    [Note.init 2 0, Note.increment_duration (Note.init 0 0)],
                  last_neume_len := 2, scales := [Scale.init 0], cur := some 0 } ∧
    scanChars { note_stream := [Note.init 2 0, Note.init 0 0], last_neume_len := 2,
                scales := [Scale.init 0], cur := some 0 } none false ['.', '.'] =
      Except.ok { note_stream :=
                    [Note.increment_duration (Note.init 2 0),
                     Note.increment_duration (Note.init 0 0)],
                  last_neume_len := 2, scales := [Scale.init 0], cur := some 0 } ∧
    scanChars { note_stream := [Note.init 2 0, Note.init 0 0], last_neume_len := 2,
                scales := [Scale.init 0], cur := some 0 } none false ['.', '.', '.'] =
      Except.ok { note_stream :=
                    [Note.increment_duration (Note.init 2 0),
                     Note.increment_duration (Note.init 0 0)],
                  last_neume_len := 2, scales := [Scale.init 0], cur := some 0 } := by
  have h := dot_double_dot_triple_dot
    { note_stream := [Note.init 2 0, Note.init 0 0], last_neume_len := 2,
      scales := [Scale.init 0], cur := some 0 }
    [] (Note.init 2 0) (Note.init 0 0) rfl rfl rfl
  exact ⟨h.1, h.2.1, h.2.2⟩

theorem dictGet_mem_values (d : List (Nat × Int)) (k : Nat) (v : Int)
    (h : dictGet d k = some v) : v ∈ d.map Prod.snd := by
  induction d with
  | nil => cases h
  | cons p rest ih =>
    obtain ⟨k', v'⟩ := p
    by_cases hk : k' = k
    · simp only [dictGet, if_pos hk, Option.some.injEq] at h
      simp [h]
    · simp only [dictGet, if_neg hk] at h
      simp [ih h]

theorem semitones_inv_ok (s : ScaleObj) (hs : ScaleInv s) (x : Int) :
    ∃ v, Scale.semitones s x = Except.ok v := by
  obtain ⟨t, stones⟩ := s
  unfold Scale.semitones
  set k := (x.emod 7).toNat with hk
  have hklt : k < 7 := by
    have h0 : 0 ≤ x.emod 7 := Int.emod_nonneg _ (by norm_num)
    have h7 : x.emod 7 < 7 := Int.emod_lt_of_pos _ (by norm_num)
    omega
  simp only [ScaleInv] at hs
  rcases hs with rfl | rfl
  · interval_cases k <;> exact ⟨_, rfl⟩
  · interval_cases k <;> exact ⟨_, rfl⟩

theorem get_scale_pos_values_ok (s : ScaleObj) (hs : ScaleInv s) (c : Int)
    (hc : c ∈ s.semi_tones.map Prod.snd) :
    ∃ pos, Scale.get_scale_pos s c = Except.ok pos := by
  obtain ⟨t, stones⟩ := s
  simp only [ScaleInv] at hs
  simp only at hc
  rcases hs with rfl | rfl
  · simp only [natTones, List.map_cons, List.map_nil, List.mem_cons,
      List.not_mem_nil, or_false] at hc
    rcases hc with rfl | rfl | rfl | rfl | rfl | rfl | rfl <;> exact ⟨_, rfl⟩
  · simp only [flatTones, List.map_cons, List.map_nil, List.mem_cons,
      List.not_mem_nil, or_false] at hc
    rcases hc with rfl | rfl | rfl | rfl | rfl | rfl | rfl <;> exact ⟨_, rfl⟩

/-! ## C5 — reachability of the reverse degree-lookup failure -/

/-- C5 counterexample: decoding `["c1", "ixjw", ","]` creates an
ornamented note at the flattened seventh (val 70, interval 10), then the
bar restores the natural mapping on the very scale object the note
references; rendering the note therefore calls `lower_note` with
interval 10, whose reverse lookup over `{0,2,4,5,7,9,11}` finds nothing
and fails with `ValueError` — the InternalInconsistency branch IS
reachable. -/
theorem lower_note_failure_counterexample :
    GabcParser.parse_gabc ["c1".toList, "ixjw".toList, ",".toList] =
      Except.ok { note_stream :=
                    [{ val := 70, scaleIdx := 0, duration := 2,
                       ornamentation := some 'w', doubled := false }],
                  last_neume_len := 0, scales := [Scale.init 0], cur := some 0 } ∧
    Note.to_ly [Scale.init 0]
        { val := 70, scaleIdx := 0, duration := 2,
          ornamentation := some 'w', doubled := false } =
      Except.error PyErr.valueError ∧
    Scale.get_scale_pos (Scale.init 0) (((70 : Int) - MIDI_PITCH_OFFSET).emod 12) =
      Except.error PyErr.valueError :=
  ⟨rfl, rfl, rfl⟩

/-- C5 amended: the reverse degree lookup of `lower_note` succeeds for
every note produced by `make_note` as long as the note's scale holds the
same degree-6 mapping at render time as at creation time (`ScaleInv`
covers both the natural and the flattened dict); the failure branch is
reachable only when an accidental change (a bar's `undo_accidental`)
intervenes between the creation and the rendering of a flattened-degree
note, as the counterexample shows. -/
theorem lower_note_ok_of_scaleInv (s : ScaleObj) (i : Nat) (p : Int) (n : Note)
    (hs : ScaleInv s) (h : Scale.make_note s i p = Except.ok n) :
    ∃ m, Scale.lower_note s i (n.val - MIDI_PITCH_OFFSET) = Except.ok m := by
  unfold Scale.make_note at h
  obtain ⟨v, hv, rfl⟩ := except_map_ok h
  have hval : (Note.init v i).val - MIDI_PITCH_OFFSET = v := by
    simp [Note.init]
  rw [hval]
  unfold Scale.semitones at hv
  cases hg : dictGet s.semi_tones ((p + s.tonic_adjust).emod 7).toNat with
  | none => rw [hg] at hv; cases hv
  | some c =>
    rw [hg] at hv
    dsimp only at hv
    injection hv with hv2
    have hcv : c ∈ s.semi_tones.map Prod.snd := dictGet_mem_values _ _ _ hg
    have hcb : 0 ≤ c ∧ c < 12 := by
      rcases hs with hst | hst <;> rw [hst] at hcv <;>
        simp only [natTones, flatTones, List.map_cons, List.map_nil, List.mem_cons,
          List.not_mem_nil, or_false] at hcv <;> omega
    have hmod : v.emod 12 = c := by
      generalize (p + s.tonic_adjust).ediv 7 = q at hv2
      show v % 12 = c
      omega
    obtain ⟨pos, hpos⟩ := get_scale_pos_values_ok s hs c hcv
    unfold Scale.lower_note
    rw [hmod, hpos]
    dsimp only
    by_cases hp : pos = 0
    · rw [if_pos hp]
      obtain ⟨w, hw⟩ := semitones_inv_ok s hs 6
      rw [hw]
      exact ⟨_, rfl⟩
    · rw [if_neg hp]
      obtain ⟨w, hw⟩ := semitones_inv_ok s hs ((pos : Int) - 1)
      rw [hw]
      exact ⟨_, rfl⟩

/-- Witness for `lower_note_ok_of_scaleInv`: the natural scale at the
origin, a note made at stave position 0. -/
theorem lower_note_ok_of_scaleInv_witness :
    ∃ m, Scale.lower_note (Scale.init 0) 0
      ((Note.init 0 0).val - MIDI_PITCH_OFFSET) = Except.ok m :=
  lower_note_ok_of_scaleInv (Scale.init 0) 0 0 (Note.init 0 0) (Or.inl rfl) rfl

theorem curScale_eval {st : ParserSt} {i : Nat} {s : ScaleObj}
    (h1 : st.cur = some i) (h2 : st.scales.get? i = some s) :
    st.curScale = Except.ok (i, s) := by
  unfold ParserSt.curScale
  rw [h1]
  dsimp only
  rw [h2]

theorem lengthenFrom_ok_of_le :
    ∀ (fuel : Nat) (s : List Note) (k : Nat), k + fuel ≤ s.length →
      ∃ s', lengthenFrom s k fuel = Except.ok s' ∧ s'.length = s.length := by
  intro fuel
  induction fuel with
  | zero =>
    intro s k h
    exact ⟨s, rfl, rfl⟩
  | succ fuel ih =>
    intro s k h
    have hk : k < s.length := by omega
    simp only [lengthenFrom]
    rw [if_pos hk]
    by_cases hd : (s.getD (s.length - 1 - k) (Note.init 0 0)).doubled = true
    · rw [if_pos hd]
      exact ih s (k + 1) (by omega)
    · rw [if_neg hd]
      have hl : (s.set (s.length - 1 - k)
          ((s.getD (s.length - 1 - k) (Note.init 0 0)).increment_duration)).length =
          s.length := by simp
      obtain ⟨s', h1, h2⟩ := ih _ (k + 1) (by rw [hl]; omega)
      exact ⟨s', h1, by rw [h2, hl]⟩

theorem lengthenFrom_err_of_lt :
    ∀ (fuel : Nat) (s : List Note) (k : Nat), 0 < fuel → s.length < k + fuel →
      lengthenFrom s k fuel = Except.error PyErr.indexError := by
  intro fuel
  induction fuel with
  | zero =>
    intro s k h0 h
    omega
  | succ fuel ih =>
    intro s k h0 h
    simp only [lengthenFrom]
    by_cases hk : k < s.length
    · rw [if_pos hk]
      have hfuel : 0 < fuel := by omega
      by_cases hd : (s.getD (s.length - 1 - k) (Note.init 0 0)).doubled = true
      · rw [if_pos hd]
        exact ih s (k + 1) hfuel (by omega)
      · rw [if_neg hd]
        have hl : (s.set (s.length - 1 - k)
            ((s.getD (s.length - 1 - k) (Note.init 0 0)).increment_duration)).length =
            s.length := by simp
        exact ih _ (k + 1) hfuel (by rw [hl]; omega)
    · rw [if_neg hk]

theorem scanChar_bar_general {st : ParserSt} {i : Nat} {s : ScaleObj}
    (prev : Option Char) (ds : Bool)
    (h1 : st.cur = some i) (h2 : st.scales.get? i = some s) :
    (st.last_neume_len ≤ st.note_stream.length →
      ∃ ns, scanChar st prev ds ',' =
        Except.ok ({ st with note_stream := ns,
                             scales := st.scales.set i (Scale.undo_accidental s),
                             last_neume_len := 0 }, prev, ds)) ∧
    (st.note_stream.length < st.last_neume_len →
      scanChar st prev ds ',' = Except.error PyErr.indexError) := by
  constructor
  · intro hle
    obtain ⟨ns, hok, -⟩ :=
      lengthenFrom_ok_of_le st.last_neume_len st.note_stream 0 (by omega)
    have hml : GabcParser.maybe_lengthen_last_note
        { st with scales := st.scales.set i (Scale.undo_accidental s) } 0 false =
        Except.ok { st with note_stream := ns,
                            scales := st.scales.set i (Scale.undo_accidental s) } := by
      unfold GabcParser.maybe_lengthen_last_note
      rw [if_neg (by decide)]
      simp only [if_pos rfl, if_true]
      rw [show ({ st with scales := st.scales.set i (Scale.undo_accidental s) }
        : ParserSt).last_neume_len = st.last_neume_len from rfl]
      rw [show ({ st with scales := st.scales.set i (Scale.undo_accidental s) }
        : ParserSt).note_stream = st.note_stream from rfl]
      rw [hok]
      rfl
    refine ⟨ns, ?_⟩
    show (match st.curScale with
          | Except.error e => Except.error e
          | Except.ok (i, s) =>
            let st2 := { st with scales := st.scales.set i (Scale.undo_accidental s) }
            match GabcParser.maybe_lengthen_last_note st2 0 false with
            | Except.error e => Except.error e
            | Except.ok st3 =>
              Except.ok ({ st3 with last_neume_len := 0 }, prev, ds)) = _
    rw [curScale_eval h1 h2]
    dsimp only
    rw [hml]
  · intro hlt
    have hml : GabcParser.maybe_lengthen_last_note
        { st with scales := st.scales.set i (Scale.undo_accidental s) } 0 false =
        Except.error PyErr.indexError := by
      unfold GabcParser.maybe_lengthen_last_note
      rw [if_neg (by decide)]
      simp only [if_pos rfl, if_true]
      rw [show ({ st with scales := st.scales.set i (Scale.undo_accidental s) }
        : ParserSt).last_neume_len = st.last_neume_len from rfl]
      rw [show ({ st with scales := st.scales.set i (Scale.undo_accidental s) }
        : ParserSt).note_stream = st.note_stream from rfl]
      rw [lengthenFrom_err_of_lt st.last_neume_len st.note_stream 0
        (by omega) (by omega)]
      rfl
    show (match st.curScale with
          | Except.error e => Except.error e
          | Except.ok (i, s) =>
            let st2 := { st with scales := st.scales.set i (Scale.undo_accidental s) }
            match GabcParser.maybe_lengthen_last_note st2 0 false with
            | Except.error e => Except.error e
            | Except.ok st3 =>
              Except.ok ({ st3 with last_neume_len := 0 }, prev, ds)) = _
    rw [curScale_eval h1 h2]
    dsimp only
    rw [hml]

theorem scanChar_bar_eval {st : ParserSt} {i : Nat} {s : ScaleObj}
    (prev : Option Char) (ds : Bool)
    (h1 : st.cur = some i) (h2 : st.scales.get? i = some s)
    (h3 : st.last_neume_len = 0) :
    scanChar st prev ds ',' =
      Except.ok ({ st with scales := st.scales.set i (Scale.undo_accidental s),
                           last_neume_len := 0 }, prev, ds) := by
  have hml : GabcParser.maybe_lengthen_last_note
      { st with scales := st.scales.set i (Scale.undo_accidental s) } 0 false =
      Except.ok { st with scales := st.scales.set i (Scale.undo_accidental s) } := by
    unfold GabcParser.maybe_lengthen_last_note
    rw [if_neg (by decide)]
    simp only [if_pos rfl]
    rw [show ({ st with scales := st.scales.set i (Scale.undo_accidental s) }
      : ParserSt).last_neume_len = st.last_neume_len from rfl, h3]
    rfl
  show (match st.curScale with
        | Except.error e => Except.error e
        | Except.ok (i, s) =>
          let st2 := { st with scales := st.scales.set i (Scale.undo_accidental s) }
          match GabcParser.maybe_lengthen_last_note st2 0 false with
          | Except.error e => Except.error e
          | Except.ok st3 =>
            Except.ok ({ st3 with last_neume_len := 0 }, prev, ds)) = _
  rw [curScale_eval h1 h2]
  dsimp only
  rw [hml]

/-! ## C7 — scope of the flat accidental -/

/-- C7: applying the flat marker (`x`) sets degree 6 of the current
scale to semitone 10, and every note made from the flattened scale at a
degree-6 stave position embeds 10 instead of 11; a bar delimiter —
whatever the pending trailing-neume length — restores degree 6 to 11 on
the same scale object (when the bar's neume lengthening is within the
stream the scan succeeds with the reverted scale and
`last_neume_len = 0`; when it reaches past the stream the decode aborts
with an IndexError, so no note is ever created past a bar with the flat
still active); and a clef token installs a fresh natural scale
(degree 6 ↦ 11) as the current one, so subsequently created notes use
11 again. -/
theorem accidental_scope :
    (∀ s : ScaleObj, dictGet (Scale.set_accidental_on s).semi_tones 6 = some 10) ∧
    (∀ s : ScaleObj, dictGet (Scale.undo_accidental s).semi_tones 6 = some 11) ∧
    (∀ t : Int, dictGet (Scale.init t).semi_tones 6 = some 11) ∧
    (∀ (st : ParserSt) (i : Nat) (s : ScaleObj),
      st.cur = some i → st.scales.get? i = some s →
      GabcParser.set_accidental st 'x' =
        Except.ok { st with scales := st.scales.set i (Scale.set_accidental_on s) }) ∧
    (∀ (s : ScaleObj) (i : Nat) (p : Int),
      (p + s.tonic_adjust).emod 7 = 6 →
      Scale.make_note (Scale.set_accidental_on s) i p =
        Except.ok (Note.init ((p + s.tonic_adjust).ediv 7 * 12 + 10) i)) ∧
    (∀ (st : ParserSt) (i : Nat) (s : ScaleObj) (prev : Option Char) (ds : Bool),
      st.cur = some i → st.scales.get? i = some s →
      (st.last_neume_len ≤ st.note_stream.length →
        ∃ ns, scanChar st prev ds ',' =
          Except.ok ({ st with note_stream := ns,
                               scales := st.scales.set i (Scale.undo_accidental s),
                               last_neume_len := 0 }, prev, ds)) ∧
      (st.note_stream.length < st.last_neume_len →
        scanChar st prev ds ',' = Except.error PyErr.indexError)) ∧
    (∀ (st : ParserSt) (c : List Char) (st' : ParserSt),
      GabcParser.set_clef st c = Except.ok st' →
      ∃ t, st' = { st with scales := st.scales ++ [Scale.init t]
                           cur := some st.scales.length }) := by
  refine ⟨fun s => dictGet_dictSet_self _ 6 10, fun s => dictGet_dictSet_self _ 6 11,
    fun t => rfl, ?_, ?_, ?_, fun st c st' h => set_clef_shape h⟩
  · intro st i s h1 h2
    unfold GabcParser.set_accidental
    rw [if_pos (by decide), curScale_eval h1 h2]
    rfl
  · intro s i p hmod
    unfold Scale.make_note Scale.semitones
    rw [show (Scale.set_accidental_on s).tonic_adjust = s.tonic_adjust from rfl, hmod]
    rw [show ((6 : Int)).toNat = 6 from rfl]
    rw [show (Scale.set_accidental_on s).semi_tones = dictSet s.semi_tones 6 10 from rfl]
    rw [dictGet_dictSet_self]
    rfl
  · intro st i s prev ds h1 h2
    exact scanChar_bar_general prev ds h1 h2

/-- Witness for `accidental_scope` on a one-scale parser state. -/
theorem accidental_scope_witness :
    GabcParser.set_accidental
        { note_stream := [], last_neume_len := 0, scales := [Scale.init 0],
          cur := some 0 } 'x' =
      Except.ok { note_stream := [], last_neume_len := 0,
                  scales := [Scale.init 0].set 0 (Scale.set_accidental_on (Scale.init 0)),
                  cur := some 0 } ∧
    Scale.make_note (Scale.set_accidental_on (Scale.init 0)) 0 6 =
      Except.ok (Note.init (((6 : Int) + (Scale.init 0).tonic_adjust).ediv 7 * 12 + 10) 0) ∧
    (∃ ns, scanChar
        { note_stream := [{ val := 70, scaleIdx := 0, duration := 2,
                            ornamentation := none, doubled := false },
                          { val := 72, scaleIdx := 0, duration := 2,
                            ornamentation := none, doubled := false }],
          last_neume_len := 2, scales := [Scale.set_accidental_on (Scale.init 0)],
          cur := some 0 } none false ',' =
      Except.ok ({ note_stream := ns, last_neume_len := 0,
                   scales := [Scale.set_accidental_on (Scale.init 0)].set 0
                     (Scale.undo_accidental (Scale.set_accidental_on (Scale.init 0))),
                   cur := some 0 }, none, false)) ∧
    scanChar { note_stream := [], last_neume_len := 1, scales := [Scale.init 0],
               cur := some 0 } none false ',' =
      Except.error PyErr.indexError ∧
    (∃ t, ({ note_stream := [], last_neume_len := 0,
             scales := [Scale.init 0, Scale.init (-2)], cur := some 1 } : ParserSt) =
      { note_stream := [], last_neume_len := 0,
        scales := [Scale.init 0] ++ [Scale.init t], cur := some 1 }) := by
  refine ⟨?_, ?_, ?_, ?_, ?_⟩
  · exact accidental_scope.2.2.2.1 _ 0 (Scale.init 0) rfl rfl
  · exact accidental_scope.2.2.2.2.1 (Scale.init 0) 0 6 (by decide)
  · exact (accidental_scope.2.2.2.2.2.1
      { note_stream := [{ val := 70, scaleIdx := 0, duration := 2,
                          ornamentation := none, doubled := false },
                        { val := 72, scaleIdx := 0, duration := 2,
                          ornamentation := none, doubled := false }],
        last_neume_len := 2, scales := [Scale.set_accidental_on (Scale.init 0)],
        cur := some 0 }
      0 (Scale.set_accidental_on (Scale.init 0)) none false rfl rfl).1 (by decide)
  · exact (accidental_scope.2.2.2.2.2.1
      { note_stream := [], last_neume_len := 1, scales := [Scale.init 0],
        cur := some 0 }
      0 (Scale.init 0) none false rfl rfl).2 (by decide)
  · exact accidental_scope.2.2.2.2.2.2
      { note_stream := [], last_neume_len := 0, scales := [Scale.init 0], cur := some 0 }
      ("c2".toList)
      { note_stream := [], last_neume_len := 0,
        scales := [Scale.init 0, Scale.init (-2)], cur := some 1 }
      rfl

theorem scaleInv_init (t : Int) : ScaleInv (Scale.init t) :=
  Or.inl rfl

theorem scaleInv_on {s : ScaleObj} (hs : ScaleInv s) :
    ScaleInv (Scale.set_accidental_on s) := by
  rcases hs with hst | hst <;>
    exact Or.inr (by rw [show (Scale.set_accidental_on s).semi_tones =
      dictSet s.semi_tones 6 10 from rfl, hst]; decide)

theorem scaleInv_undo {s : ScaleObj} (hs : ScaleInv s) :
    ScaleInv (Scale.undo_accidental s) := by
  rcases hs with hst | hst <;>
    exact Or.inl (by rw [show (Scale.undo_accidental s).semi_tones =
      dictSet s.semi_tones 6 11 from rfl, hst]; decide)

theorem stInv_of_scales_eq {st st' : ParserSt} (h : st'.scales = st.scales)
    (hI : StInv st) : StInv st' :=
  fun x hx => hI x (h ▸ hx)

theorem stInv_set_scale {st : ParserSt} {i : Nat} {s' : ScaleObj}
    (hI : StInv st) (hs' : ScaleInv s') {st' : ParserSt}
    (h : st'.scales = st.scales.set i s') : StInv st' := by
  intro x hx
  rw [h] at hx
  rcases List.mem_or_eq_of_mem_set hx with hmem | rfl
  · exact hI x hmem
  · exact hs'

theorem stInv_append_init {st st' : ParserSt} {t : Int}
    (hI : StInv st) (h : st'.scales = st.scales ++ [Scale.init t]) : StInv st' := by
  intro x hx
  rw [h, List.mem_append] at hx
  rcases hx with hmem | hmem
  · exact hI x hmem
  · rw [List.mem_singleton] at hmem
    rw [hmem]
    exact scaleInv_init t

theorem note_stream_update_ok {st st' : ParserSt} {x : Except PyErr (List Note)}
    (h : x.map (fun l => { st with note_stream := l }) = Except.ok st') :
    st'.last_neume_len = st.last_neume_len ∧ st'.scales = st.scales ∧
      st'.cur = st.cur := by
  obtain ⟨l, _, rfl⟩ := except_map_ok h
  exact ⟨rfl, rfl, rfl⟩

theorem updateLastNeume_scales (st : ParserSt) (g : List Char) :
    (updateLastNeume st g).scales = st.scales := by
  unfold updateLastNeume
  split <;> rfl

theorem stInv_scanChar {st : ParserSt} {p : Option Char} {d : Bool} {ch : Char}
    {st' : ParserSt} {p' : Option Char} {d' : Bool}
    (hI : StInv st) (h : scanChar st p d ch = Except.ok (st', p', d')) : StInv st' := by
  unfold scanChar at h
  split_ifs at h
  · -- pitch letter, tie
    obtain ⟨st2, h2, heq⟩ := except_map_ok h
    simp only [Prod.mk.injEq] at heq
    obtain ⟨rfl, -, -⟩ := heq
    exact stInv_of_scales_eq (maybe_lengthen_fields h2).2.1 hI
  · -- pitch letter, new note
    cases hn : GabcParser.make_note st ch with
    | error e => rw [hn] at h; cases h
    | ok n =>
      rw [hn] at h
      simp only [Except.ok.injEq, Prod.mk.injEq] at h
      obtain ⟨rfl, -, -⟩ := h
      exact stInv_of_scales_eq rfl hI
  · -- ornament
    obtain ⟨st2, h2, heq⟩ := except_map_ok h
    simp only [Prod.mk.injEq] at heq
    obtain ⟨rfl, -, -⟩ := heq
    unfold GabcParser.ornament_last_note at h2
    exact stInv_of_scales_eq (note_stream_update_ok h2).2.1 hI
  · -- ignorable
    simp only [Except.ok.injEq, Prod.mk.injEq] at h
    obtain ⟨rfl, -, -⟩ := h
    exact hI
  · -- dot, dot_seen true
    obtain ⟨st2, h2, heq⟩ := except_map_ok h
    simp only [Prod.mk.injEq] at heq
    obtain ⟨rfl, -, -⟩ := heq
    exact stInv_of_scales_eq (maybe_lengthen_fields h2).2.1 hI
  · -- dot, dot_seen false
    obtain ⟨st2, h2, heq⟩ := except_map_ok h
    simp only [Prod.mk.injEq] at heq
    obtain ⟨rfl, -, -⟩ := heq
    exact stInv_of_scales_eq (maybe_lengthen_fields h2).2.1 hI
  · -- hollow note
    obtain ⟨st2, h2, heq⟩ := except_map_ok h
    simp only [Prod.mk.injEq] at heq
    obtain ⟨rfl, -, -⟩ := heq
    unfold GabcParser.shorten_last_note at h2
    exact stInv_of_scales_eq (note_stream_update_ok h2).2.1 hI
  · -- bar
    cases hc : st.curScale with
    | error e => rw [hc] at h; cases h
    | ok pr =>
      obtain ⟨i, s⟩ := pr
      rw [hc] at h
      dsimp only at h
      cases hm : GabcParser.maybe_lengthen_last_note
          { st with scales := st.scales.set i (Scale.undo_accidental s) } 0 false with
      | error e => rw [hm] at h; cases h
      | ok st3 =>
        rw [hm] at h
        simp only [Except.ok.injEq, Prod.mk.injEq] at h
        obtain ⟨rfl, -, -⟩ := h
        have hsmem : s ∈ st.scales := List.get?_mem (curScale_ok hc).2
        have hI3 : StInv st3 :=
          stInv_set_scale hI (scaleInv_undo (hI s hsmem)) (maybe_lengthen_fields hm).2.1
        exact stInv_of_scales_eq rfl hI3
  · -- liquescent
    simp only [Except.ok.injEq, Prod.mk.injEq] at h
    obtain ⟨rfl, -, -⟩ := h
    exact hI

theorem stInv_scanChars :
    ∀ (g : List Char) (st : ParserSt) (p : Option Char) (d : Bool) (st' : ParserSt),
      StInv st → scanChars st p d g = Except.ok st' → StInv st' := by
  intro g
  induction g with
  | nil =>
    intro st p d st' hI h
    cases h
    exact hI
  | cons ch rest ih =>
    intro st p d st' hI h
    simp only [scanChars] at h
    cases hs : scanChar st p d ch.toLower with
    | error e => rw [hs] at h; cases h
    | ok tr =>
      obtain ⟨st2, p2, d2⟩ := tr
      rw [hs] at h
      exact ih st2 p2 d2 st' (stInv_scanChar hI hs) h

theorem stInv_dwsl {st : ParserSt} {g : List Char} {st' : ParserSt} {g' : List Char}
    (hI : StInv st)
    (h : GabcParser.deal_with_syllable_level st g = Except.ok (st', g')) : StInv st' := by
  unfold GabcParser.deal_with_syllable_level at h
  cases h1 : (if startsDoubleBar g then GabcParser.maybe_lengthen_last_note st 0 false
              else Except.ok st) with
  | error e => rw [h1] at h; cases h
  | ok st1 =>
    rw [h1] at h
    dsimp only at h
    have hI1 : StInv st1 := by
      by_cases hdb : startsDoubleBar g
      · rw [if_pos hdb] at h1
        exact stInv_of_scales_eq (maybe_lengthen_fields h1).2.1 hI
      · rw [if_neg hdb] at h1
        cases h1
        exact hI
    cases h2 : (if clefAtStart g then GabcParser.set_clef st1 g else Except.ok st1) with
    | error e => rw [h2] at h; cases h
    | ok st2 =>
      rw [h2] at h
      dsimp only at h
      have hI2 : StInv st2 := by
        by_cases hcl : clefAtStart g
        · rw [if_pos hcl] at h2
          obtain ⟨t, rfl⟩ := set_clef_shape h2
          exact stInv_append_init hI1 rfl
        · rw [if_neg hcl] at h2
          cases h2
          exact hI1
      cases h3 : (match findAccidental g with
                  | some xy => (GabcParser.set_accidental st2 xy).map
                      (fun s => (s, removeAccidentals g))
                  | none => Except.ok (st2, g)) with
      | error e => rw [h3] at h; cases h
      | ok pr =>
        obtain ⟨st3, g1⟩ := pr
        rw [h3] at h
        have hI3 : StInv st3 := by
          cases hf : findAccidental g with
          | none =>
            rw [hf] at h3
            dsimp only at h3
            simp only [Except.ok.injEq, Prod.mk.injEq] at h3
            obtain ⟨rfl, -⟩ := h3
            exact hI2
          | some xy =>
            rw [hf] at h3
            dsimp only at h3
            obtain ⟨st4, h4, heq⟩ := except_map_ok h3
            simp only [Prod.mk.injEq] at heq
            obtain ⟨rfl, -⟩ := heq
            obtain ⟨i, s, hget, hcase⟩ := set_accidental_shape h4
            have hmem : s ∈ st2.scales := List.get?_mem hget
            rcases hcase with rfl | rfl
            · exact stInv_set_scale hI2 (scaleInv_on (hI2 s hmem)) rfl
            · exact stInv_set_scale hI2 (scaleInv_undo (hI2 s hmem)) rfl
        dsimp only at h
        simp only [Except.ok.injEq, Prod.mk.injEq] at h
        obtain ⟨rfl, -⟩ := h
        exact stInv_of_scales_eq (updateLastNeume_scales st3 _) hI3

theorem stInv_decode {st : ParserSt} {g : List Char} {st' : ParserSt}
    (hI : StInv st)
    (h : GabcParser.decode_gabc_string st g = Except.ok st') : StInv st' := by
  unfold GabcParser.decode_gabc_string at h
  cases h1 : GabcParser.deal_with_syllable_level st g with
  | error e => rw [h1] at h; cases h
  | ok pr =>
    obtain ⟨st1, g1⟩ := pr
    rw [h1] at h
    exact stInv_scanChars g1 st1 none false st' (stInv_dwsl hI h1) h

theorem stInv_fold :
    ∀ (tokens : List (List Char)) (st st' : ParserSt), StInv st →
      List.foldlM GabcParser.decode_gabc_string st tokens = Except.ok st' →
      StInv st' := by
  intro tokens
  induction tokens with
  | nil =>
    intro st st' hI h
    cases h
    exact hI
  | cons tok rest ih =>
    intro st st' hI h
    simp only [List.foldlM_cons] at h
    cases hd : GabcParser.decode_gabc_string st tok with
    | error e =>
      rw [hd] at h
      cases h
    | ok st2 =>
      rw [hd] at h
      exact ih st2 st' (stInv_decode hI hd) h

/-! ## C8 — the degree-to-semitone invariant -/

/-- C8: the `semi_tones` dict of every scale object satisfies, after
construction and after every operation the decoder performs on scales
(`set_accidental` on/off, `undo_accidental`, and every decoding step;
`make_note`, `semitones` and `lower_note` are read-only in the embedding
and cannot alter it): it has exactly the seven keys 0–6 in order, degrees
0–5 map to 0, 2, 4, 5, 7, 9, and degree 6 maps to 10 or 11. -/
theorem semi_tones_invariant :
    (∀ t : Int, ScaleInv (Scale.init t)) ∧
    (∀ s : ScaleObj, ScaleInv s →
      ScaleInv (Scale.set_accidental_on s) ∧ ScaleInv (Scale.undo_accidental s)) ∧
    (∀ s : ScaleObj, ScaleInv s →
      s.semi_tones.map Prod.fst = [0, 1, 2, 3, 4, 5, 6] ∧
      dictGet s.semi_tones 0 = some 0 ∧ dictGet s.semi_tones 1 = some 2 ∧
      dictGet s.semi_tones 2 = some 4 ∧ dictGet s.semi_tones 3 = some 5 ∧
      dictGet s.semi_tones 4 = some 7 ∧ dictGet s.semi_tones 5 = some 9 ∧
      (dictGet s.semi_tones 6 = some 10 ∨ dictGet s.semi_tones 6 = some 11)) ∧
    (∀ (st : ParserSt) (g : List Char) (st' : ParserSt), StInv st →
      GabcParser.decode_gabc_string st g = Except.ok st' → StInv st') ∧
    (∀ (tokens : List (List Char)) (st' : ParserSt),
      GabcParser.parse_gabc tokens = Except.ok st' → StInv st') := by
  refine ⟨scaleInv_init, fun s hs => ⟨scaleInv_on hs, scaleInv_undo hs⟩, ?_, ?_, ?_⟩
  · intro s hs
    rcases hs with hst | hst <;> rw [hst] <;>
      exact ⟨rfl, rfl, rfl, rfl, rfl, rfl, rfl, by decide⟩
  · intro st g st' hI h
    exact stInv_decode hI h
  · intro tokens st' h
    unfold GabcParser.parse_gabc at h
    cases tokens with
    | nil => cases h
    | cons clef rest =>
      dsimp only at h
      cases h1 : GabcParser.set_clef initSt clef with
      | error e => rw [h1] at h; cases h
      | ok st1 =>
        rw [h1] at h
        have hI1 : StInv st1 := by
          obtain ⟨t, rfl⟩ := set_clef_shape h1
          exact stInv_append_init (fun x hx => absurd hx (List.not_mem_nil x)) rfl
        exact stInv_fold rest st1 st' hI1 h

/-- Witness for `semi_tones_invariant`: the concrete decode
`["c1", "ix"]` (clef then flat accidental) ends with every scale object
satisfying the invariant. -/
theorem semi_tones_invariant_witness :
    ScaleInv (Scale.init 5) ∧
    ((Scale.init 0).semi_tones.map Prod.fst = [0, 1, 2, 3, 4, 5, 6]) ∧
    StInv { note_stream := [], last_neume_len := 0,
            scales := [{ tonic_adjust := 0,
                         semi_tones := [(0, 0), (1, 2), (2, 4), (3, 5), (4, 7),
                                        (5, 9), (6, 10)] }],
            cur := some 0 } := by
  refine ⟨semi_tones_invariant.1 5,
    (semi_tones_invariant.2.2.1 (Scale.init 0) (scaleInv_init 0)).1, ?_⟩
  exact semi_tones_invariant.2.2.2.2 ["c1".toList, "ix".toList]
    { note_stream := [], last_neume_len := 0,
      scales := [{ tonic_adjust := 0,
                   semi_tones := [(0, 0), (1, 2), (2, 4), (3, 5), (4, 7),
                                  (5, 9), (6, 10)] }],
      cur := some 0 }
    rfl

theorem updateLastNeume_spec (st : ParserSt) (g : List Char) :
    (0 < trailingNeumeRun (lastNeumeSubject g) →
      (updateLastNeume st g).last_neume_len = trailingNeumeRun (lastNeumeSubject g)) ∧
    (trailingNeumeRun (lastNeumeSubject g) = 0 →
      (lastNeumeSubject g).getLast? = some '.' →
      (updateLastNeume st g).last_neume_len = 1) ∧
    (trailingNeumeRun (lastNeumeSubject g) = 0 →
      (lastNeumeSubject g).getLast? ≠ some '.' →
      (updateLastNeume st g).last_neume_len = st.last_neume_len) := by
  refine ⟨?_, ?_, ?_⟩
  · intro hpos
    simp [updateLastNeume, lastNeumeMatch, hpos]
  · intro hz hdot
    simp [updateLastNeume, lastNeumeMatch, hz, hdot]
  · intro hz hdot
    simp [updateLastNeume, lastNeumeMatch, hz, hdot]

/-! ## C9 — the trailing-neume pattern's alphabet -/

/-- C9 counterexample: the character scanner accepts `a`–`m` as pitch
letters, but `LAST_NEUME_PATTERN` only matches `[a-l]`: preprocessing the
token `"dm"`, whose trailing run of scanner-accepted pitch letters has
length 2, leaves `last_neume_len` unchanged at 0 instead of setting it
to 2. -/
theorem last_neume_alphabet_counterexample :
    GabcParser.deal_with_syllable_level initSt ("dm".toList) =
      Except.ok (initSt, "dm".toList) ∧
    (('a' ≤ 'm' ∧ 'm' ≤ 'm') ∧ ('a' ≤ 'd' ∧ 'd' ≤ 'm')) ∧
    initSt.last_neume_len = 0 ∧ (0 : Nat) ≠ 2 :=
  ⟨rfl, by decide, rfl, by decide⟩

/-- C9 amended: preprocessing sets `last_neume_len` to the length of the
cleaned token's trailing run of letters from `a`–`l` (case-insensitive) —
a strict subset of the scanner's `a`–`m` pitch-letter range, so a token
ending in `m` is NOT counted — where one trailing newline is ignored
(Python's `$` also matches just before a newline at the end of the
string); if there is no such run but the subject ends in a dot it sets
`last_neume_len` to 1; otherwise it leaves the previous value. -/
theorem last_neume_trailing_run (st : ParserSt) (g : List Char)
    (st' : ParserSt) (g' : List Char)
    (h : GabcParser.deal_with_syllable_level st g = Except.ok (st', g')) :
    (0 < trailingNeumeRun (lastNeumeSubject g') →
      st'.last_neume_len = trailingNeumeRun (lastNeumeSubject g')) ∧
    (trailingNeumeRun (lastNeumeSubject g') = 0 →
      (lastNeumeSubject g').getLast? = some '.' → st'.last_neume_len = 1) ∧
    (trailingNeumeRun (lastNeumeSubject g') = 0 →
      (lastNeumeSubject g').getLast? ≠ some '.' →
      st'.last_neume_len = st.last_neume_len) := by
  unfold GabcParser.deal_with_syllable_level at h
  cases h1 : (if startsDoubleBar g then GabcParser.maybe_lengthen_last_note st 0 false
              else Except.ok st) with
  | error e => rw [h1] at h; cases h
  | ok st1 =>
    rw [h1] at h
    dsimp only at h
    have hlen1 : st1.last_neume_len = st.last_neume_len := by
      by_cases hdb : startsDoubleBar g
      · rw [if_pos hdb] at h1
        exact (maybe_lengthen_fields h1).1
      · rw [if_neg hdb] at h1
        cases h1
        rfl
    cases h2 : (if clefAtStart g then GabcParser.set_clef st1 g else Except.ok st1) with
    | error e => rw [h2] at h; cases h
    | ok st2 =>
      rw [h2] at h
      dsimp only at h
      have hlen2 : st2.last_neume_len = st1.last_neume_len := by
        by_cases hcl : clefAtStart g
        · rw [if_pos hcl] at h2
          obtain ⟨t, h'⟩ := set_clef_shape h2
          rw [h']
        · rw [if_neg hcl] at h2
          cases h2
          rfl
      cases h3 : (match findAccidental g with
                  | some xy => (GabcParser.set_accidental st2 xy).map
                      (fun s => (s, removeAccidentals g))
                  | none => Except.ok (st2, g)) with
      | error e => rw [h3] at h; cases h
      | ok pr =>
        obtain ⟨st3, g1⟩ := pr
        rw [h3] at h
        have hlen3 : st3.last_neume_len = st2.last_neume_len := by
          cases hf : findAccidental g with
          | none =>
            rw [hf] at h3
            dsimp only at h3
            simp only [Except.ok.injEq, Prod.mk.injEq] at h3
            obtain ⟨rfl, -⟩ := h3
            rfl
          | some xy =>
            rw [hf] at h3
            dsimp only at h3
            obtain ⟨st4, h4, heq⟩ := except_map_ok h3
            simp only [Prod.mk.injEq] at heq
            obtain ⟨rfl, -⟩ := heq
            obtain ⟨i, s, hget, hcase⟩ := set_accidental_shape h4
            rcases hcase with h' | h' <;> rw [h']
        dsimp only at h
        simp only [Except.ok.injEq, Prod.mk.injEq] at h
        obtain ⟨h5, h6⟩ := h
        subst h6
        subst h5
        have hspec := updateLastNeume_spec st3 (applyRemovals g1)
        exact ⟨hspec.1, hspec.2.1, fun hz hd =>
          ((hspec.2.2 hz hd).trans hlen3).trans (hlen2.trans hlen1)⟩

/-- Witness for `last_neume_trailing_run` on the token `"ab\n"`: the `$`
anchor ignores the trailing newline, the subject's trailing run has
length 2 and `last_neume_len` is set to 2 — as in the source, where
`(?i:[a-l]+)$` matches before the trailing newline. -/
theorem last_neume_trailing_run_witness :
    (0 < trailingNeumeRun (lastNeumeSubject ("ab\n".toList)) →
      ({ note_stream := [], last_neume_len := 2, scales := [],
         cur := none } : ParserSt).last_neume_len =
        trailingNeumeRun (lastNeumeSubject ("ab\n".toList))) ∧
    (trailingNeumeRun (lastNeumeSubject ("ab\n".toList)) = 0 →
      (lastNeumeSubject ("ab\n".toList)).getLast? = some '.' →
      ({ note_stream := [], last_neume_len := 2, scales := [],
         cur := none } : ParserSt).last_neume_len = 1) ∧
    (trailingNeumeRun (lastNeumeSubject ("ab\n".toList)) = 0 →
      (lastNeumeSubject ("ab\n".toList)).getLast? ≠ some '.' →
      ({ note_stream := [], last_neume_len := 2, scales := [],
         cur := none } : ParserSt).last_neume_len = initSt.last_neume_len) :=
  last_neume_trailing_run initSt ("ab\n".toList)
    { note_stream := [], last_neume_len := 2, scales := [], cur := none }
    ("ab\n".toList) rfl

/-! ## C10 — scanning markers over an empty note stream -/

/-- C10: while the note stream is empty, a dot, a tie (a pitch letter
equal to `prev_note`), an ornament marker `w`, or a hollow-note marker
`r` makes the scan fail with an IndexError (the `note_stream[-1]` access
on an empty list) rather than being silently ignored; a bar delimiter
with `last_neume_len = 0` succeeds on the empty stream, changing no note
and leaving `last_neume_len` at 0. -/
theorem empty_stream_markers
    (st : ParserSt) (prev : Option Char) (ds : Bool)
    (hempty : st.note_stream = []) :
    scanChar st prev ds '.' = Except.error PyErr.indexError ∧
    (∀ c : Char, 'a' ≤ c → c ≤ 'm' → prev = some c →
      scanChar st prev ds c = Except.error PyErr.indexError) ∧
    scanChar st prev ds 'w' = Except.error PyErr.indexError ∧
    scanChar st prev ds 'r' = Except.error PyErr.indexError ∧
    (∀ (i : Nat) (s : ScaleObj), st.cur = some i → st.scales.get? i = some s →
      st.last_neume_len = 0 →
      scanChar st prev ds ',' =
        Except.ok ({ st with scales := st.scales.set i (Scale.undo_accidental s),
                             last_neume_len := 0 }, prev, ds)) := by
  have hml1 : GabcParser.maybe_lengthen_last_note st 1 false =
      Except.error PyErr.indexError := by
    unfold GabcParser.maybe_lengthen_last_note
    rw [hempty]
    rfl
  have hml2 : GabcParser.maybe_lengthen_last_note st 2 false =
      Except.error PyErr.indexError := by
    unfold GabcParser.maybe_lengthen_last_note
    rw [hempty]
    rfl
  refine ⟨?_, ?_, ?_, ?_, ?_⟩
  · cases ds with
    | false =>
      show (GabcParser.maybe_lengthen_last_note st 1 false).map
        (fun s => (s, prev, true)) = _
      rw [hml1]
      rfl
    | true =>
      show (GabcParser.maybe_lengthen_last_note st 2 false).map
        (fun s => (s, prev, false)) = _
      rw [hml2]
      rfl
  · intro c h1 h2 h3
    have hmlt : GabcParser.maybe_lengthen_last_note st 1 true =
        Except.error PyErr.indexError := by
      unfold GabcParser.maybe_lengthen_last_note
      rw [hempty]
      rfl
    unfold scanChar
    rw [if_pos ⟨h1, h2⟩, if_pos h3, hmlt]
    rfl
  · have ho : GabcParser.ornament_last_note st 'w' = Except.error PyErr.indexError := by
      unfold GabcParser.ornament_last_note
      rw [hempty]
      rfl
    show (GabcParser.ornament_last_note st 'w').map (fun s => (s, prev, ds)) = _
    rw [ho]
    rfl
  · have hs : GabcParser.shorten_last_note st = Except.error PyErr.indexError := by
      unfold GabcParser.shorten_last_note
      rw [hempty]
      rfl
    show (GabcParser.shorten_last_note st).map (fun s => (s, prev, ds)) = _
    rw [hs]
    rfl
  · intro i s h1 h2 h3
    exact scanChar_bar_eval prev ds h1 h2 h3

/-- Witness for `empty_stream_markers` on the empty initial state with
one scale installed. -/
theorem empty_stream_markers_witness :
    scanChar { note_stream := [], last_neume_len := 0, scales := [Scale.init 0],
               cur := some 0 } (some 'd') false '.' =
      Except.error PyErr.indexError ∧
    scanChar { note_stream := [], last_neume_len := 0, scales := [Scale.init 0],
               cur := some 0 } (some 'd') false 'd' =
      Except.error PyErr.indexError ∧
    scanChar { note_stream := [], last_neume_len := 0, scales := [Scale.init 0],
               cur := some 0 } (some 'd') false 'w' =
      Except.error PyErr.indexError ∧
    scanChar { note_stream := [], last_neume_len := 0, scales := [Scale.init 0],
               cur := some 0 } (some 'd') false 'r' =
      Except.error PyErr.indexError ∧
    scanChar { note_stream := [], last_neume_len := 0, scales := [Scale.init 0],
               cur := some 0 } (some 'd') false ',' =
      Except.ok ({ note_stream := [], last_neume_len := 0,
                   scales := [Scale.init 0].set 0 (Scale.undo_accidental (Scale.init 0)),
                   cur := some 0 }, some 'd', false) := by
  have h := empty_stream_markers
    { note_stream := [], last_neume_len := 0, scales := [Scale.init 0], cur := some 0 }
    (some 'd') false rfl
  exact ⟨h.1, h.2.1 'd' (by decide) (by decide) rfl, h.2.2.1, h.2.2.2.1,
    h.2.2.2.2 0 (Scale.init 0) rfl rfl rfl⟩

end PlayGABC
